import Mathlib

/-!
Verification development for the `pcm2g729` PCM → G.729 transcoder
(`src/pcm2g729.c`).  The C program is shallowly embedded: the input file is a
list of bytes, the opaque bcg729 codec is an abstract deterministic encoder,
machine integers are `Nat` with explicit `% 2^32` where the C code uses
`uint32_t`, and the observable effects of `main` (output-file bytes, exit
code, ordering of the I/O and encoder-lifecycle calls) are returned in a
result structure.
-/

namespace Pcm2G729

/-- `#define FRAME_SIZE 80` — 80 samples = 10ms at 8kHz. -/
def FRAME_SIZE : Nat := 80

/-- `#define ENCODED_FRAME_SIZE 10` — maximum encoded frame size in bytes. -/
def ENCODED_FRAME_SIZE : Nat := 10

/-- `#define WAV_HEADER_SIZE 58` — declared in the C source but never used;
the bytes actually emitted by `write_wav_header` total 56. -/
def WAV_HEADER_SIZE : Nat := 58

/-- Interpretation of two consecutive input bytes as one little-endian
signed 16-bit sample (the C code reads the input with
`fread(pcmFrame, sizeof(int16_t), FRAME_SIZE, pcmFile)`). -/
def toSample (lo hi : Nat) : Int :=
  if lo + 256 * hi < 32768 then ((lo + 256 * hi : Nat) : Int)
  else ((lo + 256 * hi : Nat) : Int) - 65536

/-- The sequence of complete 16-bit samples contained in the input byte
stream.  `fread` with element size 2 only counts complete elements, so a
trailing odd byte yields no sample. -/
def bytesToSamples : List Nat → List Int
  | [] => []
  | [_] => []
  | lo :: hi :: rest => toSample lo hi :: bytesToSamples rest

/-- The sequence of positive return values of
`fread(pcmFrame, sizeof(int16_t), FRAME_SIZE, pcmFile)` in the first
(counting) pass, given `n` complete samples in the input: full blocks of 80,
then the short remainder if any.  The loop
`while ((bytesRead = fread(...)) > 0) frame_count++;` increments once per
entry of this list. -/
def freadSeq (n : Nat) : List Nat :=
  if h1 : n = 0 then []
  else if h2 : 80 ≤ n then 80 :: freadSeq (n - 80)
  else [n]
termination_by n
decreasing_by omega

/-- Zero-padding of a short final frame:
`memset(pcmFrame + bytesRead, 0, (FRAME_SIZE - bytesRead) * sizeof(int16_t))`. -/
def padTo80 (xs : List Int) : List Int := xs ++ List.replicate (80 - xs.length) 0

/-- The frames read in the second (encoding) pass: the loop reads up to 80
samples per iteration and zero-pads a short final read. -/
def framesOf (l : List Int) : List (List Int) :=
  match l with
  | [] => []
  | x :: xs => padTo80 ((x :: xs).take 80) :: framesOf ((x :: xs).drop 80)
termination_by l.length
decreasing_by simp; omega

/-- Abstract model of the bcg729 codec boundary:
`initBcg729EncoderChannel(0)` may fail (`none`), and `bcg729Encoder`
deterministically maps an encoder state and one 80-sample frame to a new
state plus the encoded bytes (whose count the C code stores in
`bitStreamLength[0]` and `frames[i].size`). -/
structure Encoder (σ : Type) where
  init : Option σ
  encode : σ → List Int → σ × List Nat

/-- The second-pass encode loop: thread the encoder state through the frames
in stream order, collecting each frame's encoded bytes. -/
def encodeAll {σ : Type} (e : Encoder σ) : σ → List (List Int) → σ × List (List Nat)
  | s, [] => (s, [])
  | s, f :: fs =>
    let r := e.encode s f
    let rest := encodeAll e r.1 fs
    (rest.1, r.2 :: rest.2)

/-- Little-endian bytes of a `uint16_t` value, as written by `fwrite(&v, 2, 1, file)`. -/
def u16le (v : Nat) : List Nat := [v % 256, v / 256 % 256]

/-- Little-endian bytes of a `uint32_t` value, as written by `fwrite(&v, 4, 1, file)`. -/
def u32le (v : Nat) : List Nat :=
  [v % 256, v / 256 % 256, v / 65536 % 256, v / 16777216 % 256]

/-- The bytes emitted by `write_wav_header(file, data_size, sample_count)`,
in the order of its `fwrite` calls.  ASCII tags are spelled as byte values
(`"RIFF"`, `"WAVE"`, `"fmt "`, `"fact"`, `"data"`). -/
def write_wav_header (data_size sample_count : Nat) : List Nat :=
  [0x52, 0x49, 0x46, 0x46]
  ++ u32le (4 + 24 + 12 + 8 + data_size)
  ++ [0x57, 0x41, 0x56, 0x45]
  ++ [0x66, 0x6D, 0x74, 0x20]
  ++ u32le 16
  ++ u16le 0x0133 ++ u16le 1 ++ u32le 8000 ++ u32le 8000 ++ u16le 10 ++ u16le 0
  ++ [0x66, 0x61, 0x63, 0x74] ++ u32le 4 ++ u32le sample_count
  ++ [0x64, 0x61, 0x74, 0x61] ++ u32le data_size

/-- Observable calls made by `main`, in program order. -/
inductive Event where
  | openInput
  | openOutput
  | createContext
  | countRead (items : Nat)
  | encodeFrame (i : Nat)
  | writeHeader
  | writePayload
  | destroyContext
  | closeInput
  | closeOutput
deriving DecidableEq

/-- Whether an event is an encoder invocation (`bcg729Encoder` call). -/
def Event.isEncode : Event → Bool
  | .encodeFrame _ => true
  | _ => false

/-- Whether an event is the encoder-context creation
(`initBcg729EncoderChannel` call). -/
def Event.isCreate : Event → Bool
  | .createContext => true
  | _ => false

/-- Whether an event is the encoder-context destruction
(`closeBcg729EncoderChannel` call). -/
def Event.isDestroy : Event → Bool
  | .destroyContext => true
  | _ => false

/-- Number of complete samples in the input file. -/
def numSamples (input : List Nat) : Nat := (bytesToSamples input).length

/-- `frame_count` as computed by the first (counting) pass: a `uint32_t`
counter incremented once per positive `fread`, so it holds the number of
frames modulo 2^32. -/
def frameCountOf (input : List Nat) : Nat :=
  (freadSeq (numSamples input)).length % 4294967296

/-- The frames fed to the encoder by the second pass: the loop
`for (uint32_t i = 0; i < frame_count; i++)` performs exactly `frame_count`
reads, so only the first `frame_count` (uint32-wrapped) frames of the
stream are read and encoded. -/
def encoderInput (input : List Nat) : List (List Int) :=
  (framesOf (bytesToSamples input)).take (frameCountOf input)

/-- The list of encoded frames produced by the second pass
(`frames[0].data .. frames[frame_count-1].data`, each of `frames[i].size`
bytes). -/
def encodedFrames {σ : Type} (e : Encoder σ) (s0 : σ) (input : List Nat) :
    List (List Nat) :=
  (encodeAll e s0 (encoderInput input)).2

/-- `total_data_size`: the running `uint32_t` accumulator
`total_data_size += bitStreamLength[0]`, wrapping modulo 2^32. -/
def totalDataSize32 (encs : List (List Nat)) : Nat :=
  encs.foldl (fun a f => (a + f.length) % 4294967296) 0

/-- `sample_count = frame_count * FRAME_SIZE` in `uint32_t` arithmetic. -/
def sampleCount32 (input : List Nat) : Nat :=
  (frameCountOf input * 80) % 4294967296

/-- Observable outcome of one run of `main` on one input file:
the bytes of the output file at the destination path (`none` if the file was
never created), the process exit code, and the ordered event trace. -/
structure TranscodeResult where
  outFile : Option (List Nat)
  exit : Nat
  events : List Event

/-- Event trace of a successful run, in the order of `main`:
open both files, create the encoder context, run the counting pass, run the
encode loop once per frame, write header then payload, then clean up. -/
def successEvents (input : List Nat) : List Event :=
  [Event.openInput, Event.openOutput, Event.createContext]
  ++ (freadSeq (numSamples input)).map Event.countRead
  ++ (List.range (frameCountOf input)).map Event.encodeFrame
  ++ [Event.writeHeader, Event.writePayload, Event.destroyContext,
      Event.closeInput, Event.closeOutput]

/-- Shallow embedding of `main` for one input file.  `fopen(argv[2], "wb")`
creates (truncates) the output file before the encoder is initialized, so on
encoder-init failure the destination file exists and is empty and the
process exits with code 1.  On success the output file holds the header
followed by the concatenated encoded frames. -/
def transcodeBytes {σ : Type} (e : Encoder σ) (input : List Nat) :
    TranscodeResult :=
  match e.init with
  | none =>
    { outFile := some []
      exit := 1
      events := [Event.openInput, Event.openOutput,
                 Event.closeInput, Event.closeOutput] }
  | some s0 =>
    let encs := encodedFrames e s0 input
    { outFile := some (write_wav_header (totalDataSize32 encs)
        (sampleCount32 input) ++ encs.flatten)
      exit := 0
      events := successEvents input }

/-- Bytes of the output file left at the destination (empty if none). -/
def outBytes {σ : Type} (e : Encoder σ) (input : List Nat) : List Nat :=
  (transcodeBytes e input).outFile.getD []

/-- Read a 32-bit little-endian value at the head of a byte list. -/
def readU32at : List Nat → Nat
  | a :: b :: c :: d :: _ => a + 256 * b + 65536 * c + 16777216 * d
  | _ => 0

/-- The RIFF total chunk-size field (file offset 4). -/
def riffSizeField (out : List Nat) : Nat := readU32at (out.drop 4)

/-- The fact-chunk sample-count field (file offset 44). -/
def factSampleField (out : List Nat) : Nat := readU32at (out.drop 44)

/-- The data-chunk size field (file offset 52). -/
def dataSizeField (out : List Nat) : Nat := readU32at (out.drop 52)

/-- The payload following the header (file offset 56 onward). -/
def payloadOf (out : List Nat) : List Nat := out.drop 56

/-- Total number of samples reported by the counting-pass reads of a trace. -/
def countedItems (evs : List Event) : Nat :=
  (evs.filterMap fun ev =>
    match ev with
    | Event.countRead k => some k
    | _ => none).sum

/-- The prefix of a trace strictly before the encoder-context creation. -/
def beforeCreate (evs : List Event) : List Event :=
  evs.takeWhile fun ev => !ev.isCreate

/-- Claim C3 as stated, over a trace with `n` input samples: the counting
pass consumes the full input, no counting read occurs at or after the first
encoder invocation, and every counting read precedes the creation of the
encoder context (context created only after the counting pass). -/
def countingBeforeContext (evs : List Event) (n : Nat) : Prop :=
  countedItems evs = n
  ∧ countedItems (evs.dropWhile fun ev => !ev.isEncode) = 0
  ∧ countedItems (beforeCreate evs) = n

/-- A concrete encoder whose every call succeeds and returns no bytes. -/
def enc0 : Encoder Nat := { init := some 0, encode := fun s _ => (s, []) }

/-- A concrete encoder whose context creation fails. -/
def encFail : Encoder Nat := { init := none, encode := fun s _ => (s, []) }

/-- A concrete encoder returning ten bytes for every frame. -/
def enc10 : Encoder Nat :=
  { init := some 0, encode := fun s _ => (s, List.replicate 10 7) }

theorem freadSeq_length (n : Nat) : (freadSeq n).length = (n + 79) / 80 := by
  induction n using Nat.strong_induction_on with
  | _ n ih =>
    rw [freadSeq]
    split_ifs with h1 h2
    · simp [h1]
    · rw [List.length_cons, ih (n - 80) (by omega)]
      omega
    · simp
      omega

theorem freadSeq_sum (n : Nat) : (freadSeq n).sum = n := by
  induction n using Nat.strong_induction_on with
  | _ n ih =>
    rw [freadSeq]
    split_ifs with h1 h2
    · simp [h1]
    · rw [List.sum_cons, ih (n - 80) (by omega)]
      omega
    · simp

theorem framesOf_length (l : List Int) : (framesOf l).length = (l.length + 79) / 80 := by
  induction l using framesOf.induct with
  | case1 => simp [framesOf]
  | case2 x xs ih =>
    rw [framesOf, List.length_cons, ih, List.length_drop]
    simp only [List.length_cons]
    omega

theorem framesOf_frame_length (l : List Int) :
    ∀ f ∈ framesOf l, f.length = 80 := by
  induction l using framesOf.induct with
  | case1 => simp [framesOf]
  | case2 x xs ih =>
    rw [framesOf]
    intro f hf
    rcases List.mem_cons.mp hf with h | h
    · subst h
      simp [padTo80]
    · exact ih f h

theorem framesOf_flatten (l : List Int) :
    (framesOf l).flatten = l ++ List.replicate ((80 - l.length % 80) % 80) 0 := by
  induction l using framesOf.induct with
  | case1 => simp [framesOf]
  | case2 x xs ih =>
    rw [framesOf, List.flatten_cons, ih]
    by_cases h : (x :: xs).length ≤ 80
    · rw [List.take_of_length_le h, List.drop_eq_nil_of_le h]
      simp only [List.length_cons] at h
      simp [padTo80]
      omega
    · push_neg at h
      simp only [List.length_cons] at h
      have h1 : padTo80 ((x :: xs).take 80) = (x :: xs).take 80 := by
        simp [padTo80]
        omega
      rw [h1, ← List.append_assoc, List.take_append_drop, List.length_drop]
      have h3 : (80 - ((x :: xs).length - 80) % 80) % 80
          = (80 - (x :: xs).length % 80) % 80 := by
        simp only [List.length_cons]
        omega
      rw [h3]

theorem bytesToSamples_length (bs : List Nat) :
    (bytesToSamples bs).length = bs.length / 2 := by
  induction bs using bytesToSamples.induct with
  | case1 => rfl
  | case2 x => simp [bytesToSamples]
  | case3 lo hi rest ih =>
    rw [bytesToSamples, List.length_cons, ih]
    simp only [List.length_cons]
    omega

theorem bytesToSamples_take_even (bs : List Nat) :
    bytesToSamples (bs.take (2 * (bs.length / 2))) = bytesToSamples bs := by
  induction bs using bytesToSamples.induct with
  | case1 => rfl
  | case2 x => simp [bytesToSamples]
  | case3 lo hi rest ih =>
    have h1 : 2 * ((lo :: hi :: rest).length / 2) = 2 * (rest.length / 2) + 1 + 1 := by
      simp only [List.length_cons]
      omega
    rw [h1, List.take_succ_cons, List.take_succ_cons, bytesToSamples, bytesToSamples, ih]

theorem encodeAll_length {σ : Type} (e : Encoder σ) (fs : List (List Int)) :
    ∀ s : σ, ((encodeAll e s fs).2).length = fs.length := by
  induction fs with
  | nil => intro s; rfl
  | cons f fs ih =>
    intro s
    simp only [encodeAll, List.length_cons]
    rw [ih]

theorem encodeAll_const {σ : Type} (e : Encoder σ) (out : List Nat)
    (hconst : ∀ s f, e.encode s f = (s, out)) (fs : List (List Int)) :
    ∀ s : σ, (encodeAll e s fs).2 = List.replicate fs.length out := by
  induction fs with
  | nil => intro s; rfl
  | cons f fs ih =>
    intro s
    simp only [encodeAll, hconst, List.replicate, List.length_cons]
    rw [ih]

theorem totalDataSize32_eq (encs : List (List Nat)) :
    totalDataSize32 encs = ((encs.map List.length).sum) % 4294967296 := by
  have key : ∀ (l : List (List Nat)) (a : Nat), a < 4294967296 →
      l.foldl (fun a f => (a + f.length) % 4294967296) a
        = (a + (l.map List.length).sum) % 4294967296 := by
    intro l
    induction l with
    | nil =>
      intro a ha
      simp
      omega
    | cons f fs ih =>
      intro a ha
      rw [List.foldl_cons, ih ((a + f.length) % 4294967296) (by omega)]
      simp only [List.map_cons, List.sum_cons]
      omega
  rw [totalDataSize32, key _ 0 (by omega), Nat.zero_add]

theorem totalDataSize32_lt (encs : List (List Nat)) :
    totalDataSize32 encs < 4294967296 := by
  rw [totalDataSize32_eq]
  omega

theorem sampleCount32_lt (input : List Nat) : sampleCount32 input < 4294967296 := by
  rw [sampleCount32]
  omega

/-- Round-tripping a `uint32_t` value through its little-endian bytes
recovers the value modulo 2^32. -/
theorem readU32at_u32le (v : Nat) (rest : List Nat) :
    readU32at (u32le v ++ rest) = v % 4294967296 := by
  simp only [u32le, List.cons_append, List.nil_append, readU32at]
  omega

theorem header_length (d s : Nat) : (write_wav_header d s).length = 56 := by
  simp [write_wav_header, u32le, u16le]

theorem riffSizeField_header (d s : Nat) (rest : List Nat) :
    riffSizeField (write_wav_header d s ++ rest) = (48 + d) % 4294967296 := by
  have h : write_wav_header d s ++ rest
      = ([0x52, 0x49, 0x46, 0x46] : List Nat)
        ++ (u32le (4 + 24 + 12 + 8 + d)
            ++ (([0x57, 0x41, 0x56, 0x45] ++ [0x66, 0x6D, 0x74, 0x20]
                ++ u32le 16 ++ u16le 0x0133 ++ u16le 1 ++ u32le 8000
                ++ u32le 8000 ++ u16le 10 ++ u16le 0
                ++ [0x66, 0x61, 0x63, 0x74] ++ u32le 4 ++ u32le s
                ++ [0x64, 0x61, 0x74, 0x61] ++ u32le d) ++ rest)) := by
    simp [write_wav_header, List.append_assoc]
  rw [riffSizeField, h, List.drop_left' (by simp), readU32at_u32le]

theorem factSampleField_header (d s : Nat) (rest : List Nat) :
    factSampleField (write_wav_header d s ++ rest) = s % 4294967296 := by
  have h : write_wav_header d s ++ rest
      = (([0x52, 0x49, 0x46, 0x46] ++ u32le (4 + 24 + 12 + 8 + d)
          ++ [0x57, 0x41, 0x56, 0x45] ++ [0x66, 0x6D, 0x74, 0x20]
          ++ u32le 16 ++ u16le 0x0133 ++ u16le 1 ++ u32le 8000
          ++ u32le 8000 ++ u16le 10 ++ u16le 0
          ++ [0x66, 0x61, 0x63, 0x74] ++ u32le 4) : List Nat)
        ++ (u32le s ++ (([0x64, 0x61, 0x74, 0x61] ++ u32le d) ++ rest)) := by
    simp [write_wav_header, List.append_assoc]
  rw [factSampleField, h, List.drop_left' (by simp [u32le, u16le]), readU32at_u32le]

theorem dataSizeField_header (d s : Nat) (rest : List Nat) :
    dataSizeField (write_wav_header d s ++ rest) = d % 4294967296 := by
  have h : write_wav_header d s ++ rest
      = (([0x52, 0x49, 0x46, 0x46] ++ u32le (4 + 24 + 12 + 8 + d)
          ++ [0x57, 0x41, 0x56, 0x45] ++ [0x66, 0x6D, 0x74, 0x20]
          ++ u32le 16 ++ u16le 0x0133 ++ u16le 1 ++ u32le 8000
          ++ u32le 8000 ++ u16le 10 ++ u16le 0
          ++ [0x66, 0x61, 0x63, 0x74] ++ u32le 4 ++ u32le s
          ++ [0x64, 0x61, 0x74, 0x61]) : List Nat)
        ++ (u32le d ++ rest) := by
    simp [write_wav_header, List.append_assoc]
  rw [dataSizeField, h, List.drop_left' (by simp [u32le, u16le]), readU32at_u32le]

theorem payloadOf_header (d s : Nat) (rest : List Nat) :
    payloadOf (write_wav_header d s ++ rest) = rest := by
  rw [payloadOf, ← header_length d s, List.drop_left]

theorem outBytes_eq {σ : Type} (e : Encoder σ) (s0 : σ) (input : List Nat)
    (h : e.init = some s0) :
    outBytes e input
      = write_wav_header (totalDataSize32 (encodedFrames e s0 input))
          (sampleCount32 input) ++ (encodedFrames e s0 input).flatten := by
  simp [outBytes, transcodeBytes, h]

theorem events_eq {σ : Type} (e : Encoder σ) (s0 : σ) (input : List Nat)
    (h : e.init = some s0) :
    (transcodeBytes e input).events = successEvents input := by
  simp [transcodeBytes, h]

theorem exit_eq {σ : Type} (e : Encoder σ) (s0 : σ) (input : List Nat)
    (h : e.init = some s0) : (transcodeBytes e input).exit = 0 := by
  simp [transcodeBytes, h]

theorem dataSizeField_out {σ : Type} (e : Encoder σ) (s0 : σ) (input : List Nat)
    (h : e.init = some s0) :
    dataSizeField (outBytes e input) = totalDataSize32 (encodedFrames e s0 input) := by
  rw [outBytes_eq e s0 input h, dataSizeField_header]
  exact Nat.mod_eq_of_lt (totalDataSize32_lt _)

theorem factSampleField_out {σ : Type} (e : Encoder σ) (s0 : σ) (input : List Nat)
    (h : e.init = some s0) :
    factSampleField (outBytes e input) = sampleCount32 input := by
  rw [outBytes_eq e s0 input h, factSampleField_header]
  exact Nat.mod_eq_of_lt (sampleCount32_lt _)

theorem riffSizeField_out {σ : Type} (e : Encoder σ) (s0 : σ) (input : List Nat)
    (h : e.init = some s0) :
    riffSizeField (outBytes e input)
      = (48 + totalDataSize32 (encodedFrames e s0 input)) % 4294967296 := by
  rw [outBytes_eq e s0 input h, riffSizeField_header]

theorem payloadOf_out {σ : Type} (e : Encoder σ) (s0 : σ) (input : List Nat)
    (h : e.init = some s0) :
    payloadOf (outBytes e input) = (encodedFrames e s0 input).flatten := by
  rw [outBytes_eq e s0 input h, payloadOf_header]

theorem encodedFrames_nil {σ : Type} (e : Encoder σ) (s0 : σ) :
    encodedFrames e s0 [] = [] := by
  rw [encodedFrames, encoderInput]
  rw [show bytesToSamples [] = [] from rfl, show framesOf [] = [] by rw [framesOf]]
  rw [List.take_nil]
  rfl

theorem payload_length {σ : Type} (e : Encoder σ) (s0 : σ) (input : List Nat) :
    ((encodedFrames e s0 input).flatten).length
      = ((encodedFrames e s0 input).map List.length).sum := by
  rw [List.length_flatten]

theorem countedItems_append (a b : List Event) :
    countedItems (a ++ b) = countedItems a + countedItems b := by
  simp [countedItems, List.filterMap_append]

theorem countedItems_countReads (l : List Nat) :
    countedItems (l.map Event.countRead) = l.sum := by
  induction l with
  | nil => rfl
  | cons k t ih =>
    simp only [List.map_cons, countedItems, List.filterMap_cons] at ih ⊢
    simp only [List.sum_cons, ih]

theorem countedItems_encodeFrames (l : List Nat) :
    countedItems (l.map Event.encodeFrame) = 0 := by
  induction l with
  | nil => rfl
  | cons k t ih =>
    simp only [List.map_cons, countedItems, List.filterMap_cons] at ih ⊢
    exact ih

theorem dropWhile_append_all {α : Type} (p : α → Bool) (l₁ l₂ : List α)
    (h : ∀ a ∈ l₁, p a = true) :
    (l₁ ++ l₂).dropWhile p = l₂.dropWhile p := by
  induction l₁ with
  | nil => rfl
  | cons a t ih =>
    rw [List.cons_append, List.dropWhile_cons, h a (List.mem_cons_self a t)]
    simp only [if_true]
    exact ih fun x hx => h x (List.mem_cons_of_mem a hx)

theorem count_create_countReads (l : List Nat) :
    (l.map Event.countRead).count Event.createContext = 0 := by
  rw [List.count_eq_zero]
  simp

theorem count_create_encodeFrames (l : List Nat) :
    (l.map Event.encodeFrame).count Event.createContext = 0 := by
  rw [List.count_eq_zero]
  simp

theorem count_destroy_countReads (l : List Nat) :
    (l.map Event.countRead).count Event.destroyContext = 0 := by
  rw [List.count_eq_zero]
  simp

theorem count_destroy_encodeFrames (l : List Nat) :
    (l.map Event.encodeFrame).count Event.destroyContext = 0 := by
  rw [List.count_eq_zero]
  simp

theorem filter_isEncode_countReads (l : List Nat) :
    (l.map Event.countRead).filter Event.isEncode = [] := by
  rw [List.filter_eq_nil_iff]
  intro a ha
  rcases List.mem_map.mp ha with ⟨k, _, rfl⟩
  simp [Event.isEncode]

theorem filter_isEncode_encodeFrames (l : List Nat) :
    (l.map Event.encodeFrame).filter Event.isEncode = l.map Event.encodeFrame := by
  rw [List.filter_eq_self]
  intro a ha
  rcases List.mem_map.mp ha with ⟨k, _, rfl⟩
  rfl

theorem freadSeq_zero : freadSeq 0 = [] := by
  rw [freadSeq]
  simp

theorem sampleCount32_nil : sampleCount32 [] = 0 := by
  simp [sampleCount32, frameCountOf, numSamples, bytesToSamples, freadSeq_zero]

/-- C1 (counterexample): for the empty input the output file is not 58 bytes
long — the header actually written by `write_wav_header` is 56 bytes, so the
output for an empty input is a 56-byte file, refuting the claimed 58-byte
container header and the claimed total length 58 + totalEncodedBytes. -/
theorem claim1_counterexample : (outBytes enc0 []).length ≠ 58 := by
  rw [outBytes_eq enc0 0 [] rfl, encodedFrames_nil, sampleCount32_nil,
    show totalDataSize32 [] = 0 from rfl]
  simp [header_length]

/-- C1 (amended): for every input the output file is exactly the 56-byte
header produced by `write_wav_header` followed by the raw encoded frame
bytes, so the total output length is 56 + totalEncodedBytes; for an empty
input the output is exactly the 56-byte header with data size 0 and sample
count 0. -/
theorem claim1_header_56 {σ : Type} (e : Encoder σ) (s0 : σ) (input : List Nat)
    (h : e.init = some s0) :
    outBytes e input
      = write_wav_header (totalDataSize32 (encodedFrames e s0 input))
          (sampleCount32 input) ++ (encodedFrames e s0 input).flatten
    ∧ (write_wav_header (totalDataSize32 (encodedFrames e s0 input))
        (sampleCount32 input)).length = 56
    ∧ (outBytes e input).length
        = 56 + ((encodedFrames e s0 input).map List.length).sum
    ∧ outBytes e [] = write_wav_header 0 0 := by
  refine ⟨outBytes_eq e s0 input h, header_length _ _, ?_, ?_⟩
  · rw [outBytes_eq e s0 input h, List.length_append, header_length,
      List.length_flatten]
  · rw [outBytes_eq e s0 [] h, encodedFrames_nil, sampleCount32_nil,
      show totalDataSize32 [] = 0 from rfl]
    simp

theorem claim1_witness :
    enc0.init = some 0
    ∧ (outBytes enc0 [0, 0]
        = write_wav_header (totalDataSize32 (encodedFrames enc0 0 [0, 0]))
            (sampleCount32 [0, 0]) ++ (encodedFrames enc0 0 [0, 0]).flatten
      ∧ (write_wav_header (totalDataSize32 (encodedFrames enc0 0 [0, 0]))
          (sampleCount32 [0, 0])).length = 56
      ∧ (outBytes enc0 [0, 0]).length
          = 56 + ((encodedFrames enc0 0 [0, 0]).map List.length).sum
      ∧ outBytes enc0 [] = write_wav_header 0 0) :=
  ⟨rfl, claim1_header_56 enc0 0 [0, 0] rfl⟩

/-- C2 (counterexample): with an encoder whose context creation fails, the
output file at the destination path does exist after the failed transcode
(`fopen(argv[2], "wb")` created it before the encoder was initialized), so
the claim that no output file is created at the destination is false. -/
theorem claim2_counterexample : ¬ (transcodeBytes encFail []).outFile = none := by
  simp [transcodeBytes, encFail]

/-- C2 (amended): if encoder context creation fails the transcode aborts
with exit code 1 and writes no header or payload, but the destination file
has already been created by the earlier `fopen(argv[2], "wb")` and is left
behind as an empty (0-byte) file. -/
theorem claim2_empty_file_left {σ : Type} (e : Encoder σ) (input : List Nat)
    (h : e.init = none) :
    (transcodeBytes e input).outFile = some []
    ∧ (transcodeBytes e input).exit = 1 := by
  rw [transcodeBytes, h]
  exact ⟨rfl, rfl⟩

theorem claim2_witness :
    encFail.init = none
    ∧ ((transcodeBytes encFail []).outFile = some []
      ∧ (transcodeBytes encFail []).exit = 1) :=
  ⟨rfl, claim2_empty_file_left encFail [] rfl⟩

/-- C8 (confirmed): the transcode result is a deterministic function of the
input bytes and the encoder, so transcoding the same input twice with the
same deterministic encoder yields byte-identical output files. -/
theorem claim8_deterministic {σ : Type} (e : Encoder σ) (in1 in2 : List Nat)
    (h : in1 = in2) :
    (transcodeBytes e in1).outFile = (transcodeBytes e in2).outFile := by
  rw [h]

theorem claim8_witness :
    ([0, 0] : List Nat) = [0, 0]
    ∧ (transcodeBytes enc0 [0, 0]).outFile = (transcodeBytes enc0 [0, 0]).outFile :=
  ⟨rfl, claim8_deterministic enc0 [0, 0] [0, 0] rfl⟩

/-- When the frame count fits in 32 bits, the `uint32_t` counter holds the
exact ceiling ceil(sampleCount / 80). -/
theorem frameCount_eq_of_small (input : List Nat)
    (h : (numSamples input + 79) / 80 < 4294967296) :
    frameCountOf input = (numSamples input + 79) / 80 := by
  rw [frameCountOf, freadSeq_length, Nat.mod_eq_of_lt h]

/-- When the frame count fits in 32 bits, the second pass reads every frame
of the stream. -/
theorem encoderInput_of_small (input : List Nat)
    (h : (numSamples input + 79) / 80 < 4294967296) :
    encoderInput input = framesOf (bytesToSamples input) := by
  rw [encoderInput, frameCount_eq_of_small input h]
  refine List.take_of_length_le ?_
  rw [framesOf_length, numSamples]

/-- Flattening a list whose members all have length 80 gives 80 bytes per
member. -/
theorem flatten_length_of_uniform (l : List (List Int))
    (h : ∀ f ∈ l, f.length = 80) : l.flatten.length = 80 * l.length := by
  induction l with
  | nil => rfl
  | cons f t ih =>
    rw [List.flatten_cons, List.length_append, h f (List.mem_cons_self f t),
      ih (fun g hg => h g (List.mem_cons_of_mem f hg)), List.length_cons]
    ring

/-- Total number of samples fed to the encoder: 80 per second-pass frame,
of which there are min(frame_count, ceil(n / 80)). -/
theorem encoderInput_flatten_length (input : List Nat) :
    (encoderInput input).flatten.length
      = 80 * min (frameCountOf input)
          (framesOf (bytesToSamples input)).length := by
  have h80 : ∀ f ∈ encoderInput input, f.length = 80 :=
    fun f hf =>
      framesOf_frame_length (bytesToSamples input) f (List.take_subset _ _ hf)
  rw [flatten_length_of_uniform _ h80, encoderInput, List.length_take]

/-- C4 (counterexample): on a 2^35-byte input (2^34 samples, 214748365
frames) the fact-chunk sample-count field holds
(214748365 * 80) mod 2^32 = 16, not frameCount * 80 = 17179869200, because
`sample_count` is computed in `uint32_t` arithmetic. -/
theorem claim4_counterexample :
    factSampleField (outBytes enc0 (List.replicate (2 ^ 35) 0))
      ≠ frameCountOf (List.replicate (2 ^ 35) 0) * 80 := by
  have h1 : numSamples (List.replicate (2 ^ 35) 0) = 2 ^ 34 := by
    rw [numSamples, bytesToSamples_length, List.length_replicate]
    decide
  have h2 : frameCountOf (List.replicate (2 ^ 35) 0) = 214748365 := by
    rw [frameCountOf, freadSeq_length, h1]
    decide
  rw [factSampleField_out enc0 0 (List.replicate (2 ^ 35) 0) rfl,
    sampleCount32, h2]
  decide

/-- C4 (amended): for every input the number of frames produced equals
ceil(inputSampleCount / 80) mod 2^32 (`frame_count` is a `uint32_t`
counter), and the fact-chunk sample-count field equals
(frameCount * 80) mod 2^32; whenever ceil(inputSampleCount / 80) * 80 fits
in 32 bits, the frame count equals ceil(inputSampleCount / 80) exactly and
the fact-chunk field equals frameCount * 80 exactly. -/
theorem claim4_frame_count {σ : Type} (e : Encoder σ) (s0 : σ) (input : List Nat)
    (h : e.init = some s0) :
    frameCountOf input = ((numSamples input + 79) / 80) % 4294967296
    ∧ factSampleField (outBytes e input) = (frameCountOf input * 80) % 4294967296
    ∧ ((numSamples input + 79) / 80 * 80 < 4294967296 →
        frameCountOf input = (numSamples input + 79) / 80
        ∧ factSampleField (outBytes e input) = frameCountOf input * 80) := by
  refine ⟨by rw [frameCountOf, freadSeq_length], ?_, ?_⟩
  · rw [factSampleField_out e s0 input h, sampleCount32]
  · intro hlt
    have hsmall : frameCountOf input = (numSamples input + 79) / 80 :=
      frameCount_eq_of_small input (by omega)
    refine ⟨hsmall, ?_⟩
    rw [factSampleField_out e s0 input h, sampleCount32, hsmall,
      Nat.mod_eq_of_lt hlt]

theorem claim4_witness :
    enc0.init = some 0
    ∧ (frameCountOf [0, 0] = ((numSamples [0, 0] + 79) / 80) % 4294967296
      ∧ factSampleField (outBytes enc0 [0, 0])
          = (frameCountOf [0, 0] * 80) % 4294967296
      ∧ ((numSamples [0, 0] + 79) / 80 * 80 < 4294967296 →
          frameCountOf [0, 0] = (numSamples [0, 0] + 79) / 80
          ∧ factSampleField (outBytes enc0 [0, 0]) = frameCountOf [0, 0] * 80)) :=
  ⟨rfl, claim4_frame_count enc0 0 [0, 0] rfl⟩

/-- C9 (confirmed): all header size and count fields are computed in
unsigned 32-bit arithmetic: the fact-chunk field equals
(frame_count * 80) mod 2^32, the data-size field equals
totalEncodedBytes mod 2^32, the RIFF chunk-size field equals
(48 + totalEncodedBytes) mod 2^32, and no error is signalled on overflow
(the exit code is 0). -/
theorem claim9_uint32_fields {σ : Type} (e : Encoder σ) (s0 : σ) (input : List Nat)
    (h : e.init = some s0) :
    factSampleField (outBytes e input) = (frameCountOf input * 80) % 4294967296
    ∧ dataSizeField (outBytes e input)
        = ((encodedFrames e s0 input).map List.length).sum % 4294967296
    ∧ riffSizeField (outBytes e input)
        = (48 + ((encodedFrames e s0 input).map List.length).sum) % 4294967296
    ∧ (transcodeBytes e input).exit = 0 := by
  refine ⟨?_, ?_, ?_, exit_eq e s0 input h⟩
  · rw [factSampleField_out e s0 input h, sampleCount32]
  · rw [dataSizeField_out e s0 input h, totalDataSize32_eq]
  · rw [riffSizeField_out e s0 input h, totalDataSize32_eq]
    omega

theorem claim9_witness :
    enc0.init = some 0
    ∧ (factSampleField (outBytes enc0 [1, 2])
        = (frameCountOf [1, 2] * 80) % 4294967296
      ∧ dataSizeField (outBytes enc0 [1, 2])
          = ((encodedFrames enc0 0 [1, 2]).map List.length).sum % 4294967296
      ∧ riffSizeField (outBytes enc0 [1, 2])
          = (48 + ((encodedFrames enc0 0 [1, 2]).map List.length).sum) % 4294967296
      ∧ (transcodeBytes enc0 [1, 2]).exit = 0) :=
  ⟨rfl, claim9_uint32_fields enc0 0 [1, 2] rfl⟩

/-- C5 (counterexample): with an encoder returning 10 bytes per frame and a
2^37-byte input (858993460 frames, payload 8589934600 bytes), the data-chunk
size field holds 8589934600 mod 2^32 = 8, not the byte length of the payload
actually written, because `total_data_size` is a `uint32_t`. -/
theorem claim5_counterexample :
    dataSizeField (outBytes enc10 (List.replicate (2 ^ 37) 0))
      ≠ (payloadOf (outBytes enc10 (List.replicate (2 ^ 37) 0))).length := by
  have h1 : numSamples (List.replicate (2 ^ 37) 0) = 2 ^ 36 := by
    rw [numSamples, bytesToSamples_length, List.length_replicate]
    decide
  have h2 : frameCountOf (List.replicate (2 ^ 37) 0) = 858993460 := by
    rw [frameCountOf, freadSeq_length, h1]
    decide
  have h3 : encodedFrames enc10 0 (List.replicate (2 ^ 37) 0)
      = List.replicate 858993460 (List.replicate 10 7) := by
    rw [encodedFrames, encoderInput_of_small _ (by rw [h1]; decide),
      encodeAll_const enc10 (List.replicate 10 7) (fun s f => rfl) _ 0,
      show (framesOf (bytesToSamples (List.replicate (2 ^ 37) 0))).length
          = 858993460 from by
        rw [framesOf_length, bytesToSamples_length, List.length_replicate]
        decide]
  have h4 : ((List.replicate 858993460 (List.replicate 10 7)).map
      List.length).sum = 8589934600 := by
    rw [List.map_replicate, List.length_replicate, List.sum_replicate,
      smul_eq_mul]
  rw [dataSizeField_out enc10 0 (List.replicate (2 ^ 37) 0) rfl,
    totalDataSize32_eq, h3, h4,
    payloadOf_out enc10 0 (List.replicate (2 ^ 37) 0) rfl, h3,
    List.length_flatten, h4]
  decide

/-- C5 (amended): the data-chunk size field equals the payload byte length
modulo 2^32 and the RIFF chunk-size field equals (48 + payload length)
modulo 2^32; whenever 48 + payload length fits in 32 bits, both fields equal
the exact values claimed (data size = payload bytes written, RIFF size =
4 + 24 + 12 + 8 + totalEncodedBytes). -/
theorem claim5_sizes {σ : Type} (e : Encoder σ) (s0 : σ) (input : List Nat)
    (h : e.init = some s0) :
    payloadOf (outBytes e input) = (encodedFrames e s0 input).flatten
    ∧ dataSizeField (outBytes e input)
        = (payloadOf (outBytes e input)).length % 4294967296
    ∧ riffSizeField (outBytes e input)
        = (48 + (payloadOf (outBytes e input)).length) % 4294967296
    ∧ (48 + (payloadOf (outBytes e input)).length < 4294967296 →
        dataSizeField (outBytes e input) = (payloadOf (outBytes e input)).length
        ∧ riffSizeField (outBytes e input)
            = 4 + 24 + 12 + 8 + (payloadOf (outBytes e input)).length) := by
  have hp := payloadOf_out e s0 input h
  have hlen : (payloadOf (outBytes e input)).length
      = ((encodedFrames e s0 input).map List.length).sum := by
    rw [hp, List.length_flatten]
  refine ⟨hp, ?_, ?_, ?_⟩
  · rw [dataSizeField_out e s0 input h, hlen, totalDataSize32_eq]
  · rw [riffSizeField_out e s0 input h, hlen, totalDataSize32_eq]
    omega
  · intro hlt
    rw [hlen] at hlt
    constructor
    · rw [dataSizeField_out e s0 input h, hlen, totalDataSize32_eq,
        Nat.mod_eq_of_lt (by omega)]
    · rw [riffSizeField_out e s0 input h, hlen, totalDataSize32_eq]
      omega

theorem claim5_witness :
    enc10.init = some 0
    ∧ (payloadOf (outBytes enc10 [3, 4]) = (encodedFrames enc10 0 [3, 4]).flatten
      ∧ dataSizeField (outBytes enc10 [3, 4])
          = (payloadOf (outBytes enc10 [3, 4])).length % 4294967296
      ∧ riffSizeField (outBytes enc10 [3, 4])
          = (48 + (payloadOf (outBytes enc10 [3, 4])).length) % 4294967296
      ∧ (48 + (payloadOf (outBytes enc10 [3, 4])).length < 4294967296 →
          dataSizeField (outBytes enc10 [3, 4])
            = (payloadOf (outBytes enc10 [3, 4])).length
          ∧ riffSizeField (outBytes enc10 [3, 4])
              = 4 + 24 + 12 + 8 + (payloadOf (outBytes enc10 [3, 4])).length)) :=
  ⟨rfl, claim5_sizes enc10 0 [3, 4] rfl⟩

/-- C6 (counterexample): on an input of 687194767362 bytes
(343597383681 samples, ceil(n/80) = 2^32 + 1 frames) the wrapped `uint32_t`
frame counter equals 1, so the second pass feeds the encoder one full,
unpadded 80-sample frame: the frames fed do not flatten to the input
followed by (80 - n mod 80) mod 80 = 79 zero samples, refuting the claimed
padding of the final frame. -/
theorem claim6_counterexample :
    (encoderInput (List.replicate 687194767362 1)).flatten
      ≠ bytesToSamples (List.replicate 687194767362 1)
        ++ List.replicate
            ((80 - numSamples (List.replicate 687194767362 1) % 80) % 80) 0 := by
  have hn : (bytesToSamples (List.replicate 687194767362 1)).length
      = 343597383681 := by
    rw [bytesToSamples_length, List.length_replicate]
  have hfr : (framesOf (bytesToSamples (List.replicate 687194767362 1))).length
      = 4294967297 := by
    rw [framesOf_length, hn]
  have hfc : frameCountOf (List.replicate 687194767362 1) = 1 := by
    rw [frameCountOf, freadSeq_length, numSamples, hn]
  intro heq
  have hlen := congrArg List.length heq
  rw [encoderInput_flatten_length, hfc, hfr, List.length_append,
    List.length_replicate, numSamples, hn] at hlen
  omega

/-- C6 (amended): every frame fed to the encoder has exactly 80 samples;
whenever ceil(totalSamples/80) fits in 32 bits, the frames fed to the
encoder flatten to the input samples followed by exactly
(80 - n mod 80) mod 80 zero samples, an input whose length is an exact
multiple of 80 gets no padding, and a 1-sample input produces exactly one
frame padded with 79 zero samples. -/
theorem claim6_framing (input : List Nat) :
    (∀ f ∈ encoderInput input, f.length = 80)
    ∧ ((numSamples input + 79) / 80 < 4294967296 →
        (encoderInput input).flatten
          = bytesToSamples input
            ++ List.replicate ((80 - numSamples input % 80) % 80) 0
        ∧ (numSamples input % 80 = 0 →
            (encoderInput input).flatten = bytesToSamples input)
        ∧ (numSamples input = 1 → (encoderInput input).length = 1
            ∧ (encoderInput input).flatten
                = bytesToSamples input ++ List.replicate 79 0)) := by
  constructor
  · exact fun f hf =>
      framesOf_frame_length (bytesToSamples input) f (List.take_subset _ _ hf)
  · intro hsmall
    rw [encoderInput_of_small input hsmall]
    refine ⟨?_, ?_, ?_⟩
    · rw [framesOf_flatten, numSamples]
    · intro h0
      rw [numSamples] at h0
      rw [framesOf_flatten, h0]
      simp
    · intro h1
      rw [numSamples] at h1
      constructor
      · rw [framesOf_length, h1]
      · rw [framesOf_flatten, h1]

theorem claim6_witness :
    ((numSamples [10, 0] + 79) / 80 < 4294967296 ∧ numSamples [10, 0] = 1)
    ∧ ((encoderInput [10, 0]).length = 1
      ∧ (encoderInput [10, 0]).flatten
          = bytesToSamples [10, 0] ++ List.replicate 79 0) :=
  ⟨⟨by decide, by decide⟩,
    ((claim6_framing [10, 0]).2 (by decide)).2.2 (by decide)⟩

/-- The whole observable result depends on the input file only through its
sequence of complete samples. -/
theorem transcode_congr {σ : Type} (e : Encoder σ) (in1 in2 : List Nat)
    (h : bytesToSamples in1 = bytesToSamples in2) :
    transcodeBytes e in1 = transcodeBytes e in2 := by
  cases hinit : e.init with
  | none => simp [transcodeBytes, hinit]
  | some s0 =>
    simp [transcodeBytes, hinit, encodedFrames, encoderInput, successEvents,
      frameCountOf, sampleCount32, numSamples, h]

/-- C10 (confirmed): a trailing odd byte of the input is discarded at the
public interface: the transcode result is unchanged when the trailing byte
is removed, the sample count is the number of complete 16-bit samples
(byte length / 2), and on the concrete input 0x0001 followed by a stray
byte 7 the only frame is sample 1 followed by 79 zero samples — the stray
byte never reaches the encoder. -/
theorem claim10_odd_trailing_byte {σ : Type} (e : Encoder σ) (input : List Nat) :
    transcodeBytes e input = transcodeBytes e (input.take (2 * (input.length / 2)))
    ∧ numSamples input = input.length / 2
    ∧ framesOf (bytesToSamples [1, 0, 7]) = [(1 : Int) :: List.replicate 79 0] := by
  refine ⟨transcode_congr e _ _ (bytesToSamples_take_even input).symm, ?_, ?_⟩
  · rw [numSamples, bytesToSamples_length]
  · have hbs : bytesToSamples [1, 0, 7] = [(1 : Int)] := by
      simp [bytesToSamples, toSample]
    rw [hbs, framesOf, List.take_of_length_le (by simp),
      List.drop_eq_nil_of_le (by simp), framesOf]
    simp [padTo80]

theorem countedItems_cons (a : Event) (t : List Event) :
    countedItems (a :: t)
      = (match a with | Event.countRead k => k | _ => 0) + countedItems t := by
  cases a <;> simp [countedItems, List.filterMap_cons]

theorem countedItems_dropWhile_le (p : Event → Bool) (l : List Event) :
    countedItems (l.dropWhile p) ≤ countedItems l := by
  induction l with
  | nil => exact Nat.le_refl 0
  | cons a t ih =>
    rw [List.dropWhile_cons]
    split_ifs with hp
    · exact Nat.le_trans ih (by rw [countedItems_cons]; omega)
    · exact Nat.le_refl _

theorem not_encode_head : ∀ a ∈ [Event.openInput, Event.openOutput,
    Event.createContext], (!a.isEncode) = true := by
  decide

theorem not_encode_countReads (l : List Nat) :
    ∀ a ∈ l.map Event.countRead, (!a.isEncode) = true := by
  intro a ha
  rcases List.mem_map.mp ha with ⟨k, _, rfl⟩
  rfl

theorem not_destroy_head : ∀ a ∈ [Event.openInput, Event.openOutput,
    Event.createContext], (!a.isDestroy) = true := by
  decide

theorem not_destroy_countReads (l : List Nat) :
    ∀ a ∈ l.map Event.countRead, (!a.isDestroy) = true := by
  intro a ha
  rcases List.mem_map.mp ha with ⟨k, _, rfl⟩
  rfl

theorem not_destroy_encodeFrames (l : List Nat) :
    ∀ a ∈ l.map Event.encodeFrame, (!a.isDestroy) = true := by
  intro a ha
  rcases List.mem_map.mp ha with ⟨k, _, rfl⟩
  rfl

/-- C3 (counterexample): on a 2-byte input (1 sample) the trace of a
successful run refutes the claim as stated: the counting pass does consume
the full input without invoking the encoder, but the encoder context is
created before the counting reads, not after them. -/
theorem claim3_counterexample :
    ¬ countingBeforeContext (transcodeBytes enc0 [0, 0]).events 1 := by
  have h1 : numSamples [0, 0] = 1 := by
    rw [numSamples, bytesToSamples_length]
    decide
  have h2 : freadSeq 1 = [1] := by
    rw [freadSeq]
    simp
  have hev : (transcodeBytes enc0 [0, 0]).events
      = [Event.openInput, Event.openOutput, Event.createContext,
         Event.countRead 1, Event.encodeFrame 0, Event.writeHeader,
         Event.writePayload, Event.destroyContext, Event.closeInput,
         Event.closeOutput] := by
    rw [events_eq enc0 0 [0, 0] rfl, successEvents, h1, h2, frameCountOf, h1, h2]
    rfl
  rw [hev]
  simp only [countingBeforeContext, countedItems, beforeCreate]
  decide

/-- C3 (amended): the counting pass consumes the full input (the counting
reads report every complete sample) and no counting read occurs at or after
the first encoder invocation, but the encoder context is created right
after the two files are opened, before the counting pass — not afterwards. -/
theorem claim3_context_before_counting {σ : Type} (e : Encoder σ) (s0 : σ)
    (input : List Nat) (h : e.init = some s0) :
    countedItems (transcodeBytes e input).events = numSamples input
    ∧ countedItems ((transcodeBytes e input).events.dropWhile
        fun ev => !ev.isEncode) = 0
    ∧ beforeCreate (transcodeBytes e input).events
        = [Event.openInput, Event.openOutput] := by
  rw [events_eq e s0 input h, successEvents]
  refine ⟨?_, ?_, ?_⟩
  · rw [countedItems_append, countedItems_append, countedItems_append,
      countedItems_countReads, countedItems_encodeFrames, freadSeq_sum,
      show countedItems [Event.openInput, Event.openOutput,
        Event.createContext] = 0 from rfl,
      show countedItems [Event.writeHeader, Event.writePayload,
        Event.destroyContext, Event.closeInput, Event.closeOutput] = 0 from rfl]
    omega
  · rw [List.append_assoc, List.append_assoc,
      dropWhile_append_all _ _ _ not_encode_head,
      dropWhile_append_all _ _ _ (not_encode_countReads _)]
    have h0 : countedItems ((List.range (frameCountOf input)).map
        Event.encodeFrame ++ [Event.writeHeader, Event.writePayload,
        Event.destroyContext, Event.closeInput, Event.closeOutput]) = 0 := by
      rw [countedItems_append, countedItems_encodeFrames]
      rfl
    exact Nat.le_zero.mp (h0 ▸ countedItems_dropWhile_le _ _)
  · rw [beforeCreate]
    rfl

theorem claim3_witness :
    enc0.init = some 0
    ∧ (countedItems (transcodeBytes enc0 [1, 1]).events = numSamples [1, 1]
      ∧ countedItems ((transcodeBytes enc0 [1, 1]).events.dropWhile
          fun ev => !ev.isEncode) = 0
      ∧ beforeCreate (transcodeBytes enc0 [1, 1]).events
          = [Event.openInput, Event.openOutput]) :=
  ⟨rfl, claim3_context_before_counting enc0 0 [1, 1] rfl⟩

/-- C7 (counterexample): on an input of 687194767362 bytes (343597383681
samples, ceil(n/80) = 2^32 + 1 frames of the stream) the wrapped `uint32_t`
frame counter equals 1, so a successful run performs exactly one encoder
invocation, not one per frame of the stream: the claim that the encoder is
invoked exactly once per frame is false. -/
theorem claim7_counterexample :
    ((transcodeBytes enc0 (List.replicate 687194767362 1)).events.filter
        Event.isEncode).length
      ≠ (framesOf (bytesToSamples (List.replicate 687194767362 1))).length := by
  have hn : (bytesToSamples (List.replicate 687194767362 1)).length
      = 343597383681 := by
    rw [bytesToSamples_length, List.length_replicate]
  have hfr : (framesOf (bytesToSamples (List.replicate 687194767362 1))).length
      = 4294967297 := by
    rw [framesOf_length, hn]
  have hfc : frameCountOf (List.replicate 687194767362 1) = 1 := by
    rw [frameCountOf, freadSeq_length, numSamples, hn]
  have hfil : (transcodeBytes enc0
        (List.replicate 687194767362 1)).events.filter Event.isEncode
      = (List.range (frameCountOf (List.replicate 687194767362 1))).map
          Event.encodeFrame := by
    rw [events_eq enc0 0 _ rfl, successEvents]
    rw [List.filter_append, List.filter_append, List.filter_append,
      filter_isEncode_countReads, filter_isEncode_encodeFrames,
      show List.filter Event.isEncode [Event.openInput, Event.openOutput,
        Event.createContext] = [] from rfl,
      show List.filter Event.isEncode [Event.writeHeader, Event.writePayload,
        Event.destroyContext, Event.closeInput, Event.closeOutput]
        = [] from rfl]
    rw [List.nil_append, List.nil_append, List.append_nil]
  rw [hfil, List.length_map, List.length_range, hfc, hfr]
  omega

/-- C7 (amended): in every successful run the encoder context is created
exactly once, the encoder is invoked exactly once per second-pass frame and
in stream order (the encode events are exactly frames 0, 1, ...,
frame_count - 1 in order, where frame_count is the uint32-wrapped counter),
the context is destroyed exactly once, and no encoder invocation happens at
or after the destruction; frame_count equals the stream frame count
ceil(n/80) — so the encoder runs once per frame of the file — whenever
ceil(n/80) fits in 32 bits. -/
theorem claim7_encoder_lifecycle {σ : Type} (e : Encoder σ) (s0 : σ)
    (input : List Nat) (h : e.init = some s0) :
    (transcodeBytes e input).events.count Event.createContext = 1
    ∧ (transcodeBytes e input).events.filter Event.isEncode
        = (List.range (frameCountOf input)).map Event.encodeFrame
    ∧ (transcodeBytes e input).events.count Event.destroyContext = 1
    ∧ ((transcodeBytes e input).events.dropWhile
        fun ev => !ev.isDestroy).filter Event.isEncode = []
    ∧ ((numSamples input + 79) / 80 < 4294967296 →
        frameCountOf input = (framesOf (bytesToSamples input)).length) := by
  rw [events_eq e s0 input h, successEvents]
  refine ⟨?_, ?_, ?_, ?_, ?_⟩
  · rw [List.count_append, List.count_append, List.count_append,
      count_create_countReads, count_create_encodeFrames]
    rfl
  · rw [List.filter_append, List.filter_append, List.filter_append,
      filter_isEncode_countReads, filter_isEncode_encodeFrames,
      show List.filter Event.isEncode [Event.openInput, Event.openOutput,
        Event.createContext] = [] from rfl,
      show List.filter Event.isEncode [Event.writeHeader, Event.writePayload,
        Event.destroyContext, Event.closeInput, Event.closeOutput]
        = [] from rfl]
    simp
  · rw [List.count_append, List.count_append, List.count_append,
      count_destroy_countReads, count_destroy_encodeFrames]
    rfl
  · rw [List.append_assoc, List.append_assoc,
      dropWhile_append_all _ _ _ not_destroy_head,
      dropWhile_append_all _ _ _ (not_destroy_countReads _),
      dropWhile_append_all _ _ _ (not_destroy_encodeFrames _)]
    rfl
  · intro hsmall
    rw [frameCount_eq_of_small input hsmall, framesOf_length, numSamples]

theorem claim7_witness :
    enc0.init = some 0
    ∧ ((transcodeBytes enc0 [2, 2]).events.count Event.createContext = 1
      ∧ (transcodeBytes enc0 [2, 2]).events.filter Event.isEncode
          = (List.range (frameCountOf [2, 2])).map Event.encodeFrame
      ∧ (transcodeBytes enc0 [2, 2]).events.count Event.destroyContext = 1
      ∧ ((transcodeBytes enc0 [2, 2]).events.dropWhile
          fun ev => !ev.isDestroy).filter Event.isEncode = []
      ∧ ((numSamples [2, 2] + 79) / 80 < 4294967296 →
          frameCountOf [2, 2]
            = (framesOf (bytesToSamples [2, 2])).length)) :=
  ⟨rfl, claim7_encoder_lifecycle enc0 0 [2, 2] rfl⟩

end Pcm2G729
